import Mathlib

/-!
# Verification of the smart-vim-motions cache and provider registry

Shallow embedding of the core of the `smart-vim-motions` repository:
the `CacheManager` (result cache with TTL expiry, capacity eviction,
provider-scoped invalidation and hit/miss accounting) and the
`ProviderFactory` (provider instance registry keyed by a configuration
fingerprint).

Modelling conventions:
* A JavaScript `Map<string, V>` is a `List (String × V)` in insertion
  order with pairwise-distinct keys; `Map.set` replaces in place,
  `Map.delete` removes the pair with the given key.
* Timestamps (`Date.now()`, `expiresAt`, `calculatedAt`) are `Int`
  milliseconds; `confidence` and the hit rate are `ℚ`.
* `Array.prototype.sort` is stable (ES2019); it is modelled by the
  stable `List.insertionSort`.
* `Math.floor(n * 0.25)` on an array length is exactly `n / 4` in `Nat`
  arithmetic (0.25 is a dyadic rational and `n * 0.25` is exact for any
  realistic length).
* Persistence (`context.globalState`) is modelled by the list of entries
  handed to `save` / returned by `load`; methods that conditionally call
  `saveCache` additionally return the `Bool` saying whether they saved.
* Strings are assumed ASCII so that `charCodeAt` is `Char.toNat` and
  UTF-16 length is `String.length`.
-/

namespace SmartVim

/-- `MotionResponse` from `src/models/Types.ts`. -/
structure MotionResponse where
  keys : String
  explanation : String
  confidence : ℚ
  calculatedAt : Int
  provider : String
  alternatives : Option (List String)
deriving DecidableEq, Repr

/-- `CacheEntry` from `src/models/Types.ts`. -/
structure CacheEntry where
  key : String
  motion : MotionResponse
  expiresAt : Int
  provider : String
deriving DecidableEq, Repr

/-- `Map.get`: the value stored under `k`, if any. -/
def mapGet {α : Type} (m : List (String × α)) (k : String) : Option α :=
  (m.find? (fun p => p.1 == k)).map (·.2)

/-- `Map.set`: replace in place if the key is present, else append. -/
def mapSet {α : Type} (m : List (String × α)) (k : String) (v : α) :
    List (String × α) :=
  match m with
  | [] => [(k, v)]
  | p :: rest => if p.1 == k then (k, v) :: rest else p :: mapSet rest k v

/-- `Map.delete k` (on a map with distinct keys this removes the single
pair stored under `k`; modelled as a filter). -/
def mapDelete {α : Type} (m : List (String × α)) (k : String) :
    List (String × α) :=
  m.filter (fun p => p.1 != k)

/-- Keys of a map are pairwise distinct — the JS `Map` invariant. -/
def NodupKeys {α : Type} (m : List (String × α)) : Prop :=
  (m.map Prod.fst).Nodup

instance {α : Type} (m : List (String × α)) : Decidable (NodupKeys m) :=
  inferInstanceAs (Decidable (m.map Prod.fst).Nodup)

/-- The JS `Map<string, CacheEntry>` held by `CacheManager`, as an
insertion-ordered association list. -/
abbrev CacheMap := List (String × CacheEntry)

/-- Mutable state of a `CacheManager` instance
(fields `cache`, `hitCount`, `missCount`, `ttl`, `maxSize`). -/
structure CacheState where
  cache : CacheMap
  hitCount : Nat
  missCount : Nat
  ttl : Int
  maxSize : Nat
deriving Repr

namespace CacheManager

/-- `getHitRate` (line 329): `total === 0 ? 0 : hitCount / total * 100`. -/
def getHitRate (s : CacheState) : ℚ :=
  let total := s.hitCount + s.missCount
  if total = 0 then 0 else ((s.hitCount : ℚ) / (total : ℚ)) * 100

/-- `get` (lines 33–52).  Returns the looked-up motion (if live), the
updated state, and whether `saveCache` was called. -/
def get (s : CacheState) (key : String) (now : Int) :
    Option MotionResponse × CacheState × Bool :=
  match mapGet s.cache key with
  | none => (none, { s with missCount := s.missCount + 1 }, false)
  | some entry =>
    if entry.expiresAt < now then
      (none,
       { s with cache := mapDelete s.cache key, missCount := s.missCount + 1 },
       true)
    else
      (some entry.motion, { s with hitCount := s.hitCount + 1 }, false)

/-- The comparator of `evictOldEntries` (line 277):
`(a, b) => a[1].expiresAt - b[1].expiresAt`, i.e. ascending `expiresAt`. -/
def byExpiry (a b : String × CacheEntry) : Prop :=
  a.2.expiresAt ≤ b.2.expiresAt

instance : DecidableRel byExpiry := fun a b =>
  inferInstanceAs (Decidable (a.2.expiresAt ≤ b.2.expiresAt))

instance : IsTotal (String × CacheEntry) byExpiry :=
  ⟨fun a b => Int.le_total a.2.expiresAt b.2.expiresAt⟩

instance : IsTrans (String × CacheEntry) byExpiry :=
  ⟨fun _ _ _ h h' => le_trans h h'⟩

/-- `evictOldEntries` (lines 273–288): sort all entries by `expiresAt`
ascending (stable sort), take the first `⌊length * 0.25⌋` keys, delete
them from the map. -/
def evictOldEntries (cache : CacheMap) : CacheMap :=
  let sorted := cache.insertionSort byExpiry
  let toRemove := cache.length / 4
  let keysToRemove := (sorted.take toRemove).map Prod.fst
  keysToRemove.foldl mapDelete cache

/-- `set` (lines 59–76): evict if at capacity, then insert the entry with
`expiresAt = now + ttl` and `provider = motion.provider`; always saves. -/
def set (s : CacheState) (key : String) (motion : MotionResponse) (now : Int) :
    CacheState :=
  let s :=
    if s.cache.length ≥ s.maxSize then { s with cache := evictOldEntries s.cache }
    else s
  let entry : CacheEntry :=
    { key := key, motion := motion, expiresAt := now + s.ttl,
      provider := motion.provider }
  { s with cache := mapSet s.cache key entry }

/-- `has` (lines 83–86): present and `expiresAt ≥ now`; no mutation. -/
def has (s : CacheState) (key : String) (now : Int) : Bool :=
  match mapGet s.cache key with
  | none => false
  | some entry => entry.expiresAt ≥ now

/-- `delete` (lines 92–98): remove if present; saves only on removal. -/
def delete (s : CacheState) (key : String) : CacheState × Bool :=
  let present := (mapGet s.cache key).isSome
  if present then ({ s with cache := mapDelete s.cache key }, true)
  else (s, false)

/-- `clearCache` (lines 103–109): empty the map, reset both counters. -/
def clearCache (s : CacheState) : CacheState :=
  { s with cache := [], hitCount := 0, missCount := 0 }

/-- `clearProviderCache` (lines 115–132): collect the keys of entries
whose `provider` matches, delete each of them, and save iff at least one
key was collected. -/
def clearProviderCache (s : CacheState) (provider : String) :
    CacheState × Bool :=
  let keysToDelete := (s.cache.filter (fun p => p.2.provider == provider)).map Prod.fst
  let cache := keysToDelete.foldl mapDelete s.cache
  ({ s with cache := cache }, decide (keysToDelete.length > 0))

/-- `updateConfig` (lines 184–202): optionally update `ttl`; optionally
update `maxSize` and, if the cache is now over the new bound, run one
pass of eviction. -/
def updateConfig (s : CacheState) (ttl? : Option Int) (maxSize? : Option Nat) :
    CacheState :=
  let s := match ttl? with
    | some t => { s with ttl := t }
    | none => s
  match maxSize? with
  | some m =>
    let s := { s with maxSize := m }
    if s.cache.length > s.maxSize then { s with cache := evictOldEntries s.cache }
    else s
  | none => s

/-- `cleanupExpired` (lines 293–313): remove every entry with
`expiresAt < now`; saves iff something was removed. -/
def cleanupExpired (s : CacheState) (now : Int) : CacheState × Bool :=
  let keysToDelete := (s.cache.filter (fun p => p.2.expiresAt < now)).map Prod.fst
  let cache := keysToDelete.foldl mapDelete s.cache
  ({ s with cache := cache }, decide (keysToDelete.length > 0))

/-- `saveCache` (lines 261–268): persist `Array.from(cache.values())`. -/
def saveCache (cache : CacheMap) : List CacheEntry :=
  cache.map Prod.snd

/-- `loadCache` (lines 234–256): starting from an empty map, insert each
persisted entry with `expiresAt > now` under its own `key` field; skip
expired entries. -/
def loadCache (persisted : List CacheEntry) (now : Int) : CacheMap :=
  persisted.foldl
    (fun m entry => if entry.expiresAt > now then mapSet m entry.key entry else m)
    []

/-- Result rows of `exportCache` (lines 208–229). -/
structure ExportRow where
  key : String
  provider : String
  confidence : ℚ
  age : Int
  expiresIn : Int
deriving DecidableEq, Repr

/-- The comparator of `exportCache` (line 228): `(a, b) => b.age - a.age`,
i.e. descending `age` (oldest first). -/
def byAgeDesc (a b : ExportRow) : Prop := b.age ≤ a.age

instance : DecidableRel byAgeDesc := fun a b =>
  inferInstanceAs (Decidable (b.age ≤ a.age))

instance : IsTotal ExportRow byAgeDesc := ⟨fun a b => Int.le_total b.age a.age⟩

instance : IsTrans ExportRow byAgeDesc := ⟨fun _ _ _ h h' => le_trans h' h⟩

/-- Key truncation in `exportCache` (line 220):
`key.substring(0, 50) + (key.length > 50 ? '...' : '')`. -/
def truncKey (k : String) : String :=
  k.take 50 ++ (if k.length > 50 then "..." else "")

/-- `exportCache` (lines 208–229): one row per entry (expired or not),
sorted by age descending (stable sort). -/
def exportCache (s : CacheState) (now : Int) : List ExportRow :=
  let rows := s.cache.map (fun p =>
    { key := truncKey p.1
      provider := p.2.provider
      confidence := p.2.motion.confidence
      age := now - p.2.motion.calculatedAt
      expiresIn := p.2.expiresAt - now : ExportRow })
  rows.insertionSort byAgeDesc

/-! JSON serialization used by `getStats`'s memory estimate
(`JSON.stringify(entry).length * 2`, line 164).  Strings are assumed to
need no escaping; numbers are rendered in exact shortest decimal form,
which agrees with JS `JSON.stringify` on all decimally-representable
values (timestamps are integers; `confidence` is a dyadic value such as
`0.5`). -/

/-- A JSON string literal (assuming no characters needing escapes). -/
def jsonString (s : String) : String := "\x22" ++ s ++ "\x22"

/-- Smallest `k ≤ 39` with `d ∣ 10 ^ k` (exists for every denominator of
a JS number: those are powers of two below `2 ^ 53`). -/
def pow10Exp (d : Nat) : Option Nat :=
  (List.range 40).find? (fun k => decide (d ∣ 10 ^ k))

/-- Decimal digits of `n` left-padded with zeros to width `k`. -/
def padDigits (n k : Nat) : String :=
  let s := toString n
  String.mk (List.replicate (k - s.length) '0') ++ s

/-- A JSON number: exact decimal rendering of a rational whose
denominator divides a power of ten. -/
def jsonNumber (q : ℚ) : String :=
  match pow10Exp q.den with
  | some 0 => toString q.num
  | some k =>
    let n := q.num * (10 : Int) ^ k / (q.den : Int)
    let sign := if n < 0 then "-" else ""
    let m := n.natAbs
    sign ++ toString (m / 10 ^ k) ++ "." ++ padDigits (m % 10 ^ k) k
  | none => toString q.num ++ "/" ++ toString q.den

/-- `JSON.stringify` of a `MotionResponse` (fields in declaration order;
an absent `alternatives` property is omitted). -/
def jsonMotion (m : MotionResponse) : String :=
  "\x7b" ++ jsonString "keys" ++ ":" ++ jsonString m.keys ++ "," ++
  jsonString "explanation" ++ ":" ++ jsonString m.explanation ++ "," ++
  jsonString "confidence" ++ ":" ++ jsonNumber m.confidence ++ "," ++
  jsonString "calculatedAt" ++ ":" ++ jsonNumber (m.calculatedAt : ℚ) ++ "," ++
  jsonString "provider" ++ ":" ++ jsonString m.provider ++
  (match m.alternatives with
   | none => ""
   | some alts =>
     "," ++ jsonString "alternatives" ++ ":[" ++
       String.intercalate "," (alts.map jsonString) ++ "]") ++
  "\x7d"

/-- `JSON.stringify` of a `CacheEntry` (fields in the order of the object
literal built by `set`, lines 65–70). -/
def jsonEntry (e : CacheEntry) : String :=
  "\x7b" ++ jsonString "key" ++ ":" ++ jsonString e.key ++ "," ++
  jsonString "motion" ++ ":" ++ jsonMotion e.motion ++ "," ++
  jsonString "expiresAt" ++ ":" ++ jsonNumber (e.expiresAt : ℚ) ++ "," ++
  jsonString "provider" ++ ":" ++ jsonString e.provider ++ "\x7d"

/-- The record returned by `getStats` (lines 138–178). -/
structure CacheStats where
  size : Nat
  maxSize : Nat
  hitCount : Nat
  missCount : Nat
  hitRate : ℚ
  oldestEntry : Option Int
  newestEntry : Option Int
  providerBreakdown : List (String × Nat)
  memoryUsage : Nat
deriving Repr

/-- `providerBreakdown[p] = (providerBreakdown[p] || 0) + 1` (line 161):
increment in place, or append a fresh field. -/
def bumpProvider (m : List (String × Nat)) (p : String) : List (String × Nat) :=
  match m with
  | [] => [(p, 1)]
  | q :: rest => if q.1 == p then (q.1, q.2 + 1) :: rest else q :: bumpProvider rest p

/-- The body of the single `for` loop of `getStats` (lines 154–165): the
accumulator is (oldest `calculatedAt` so far with sentinel `Infinity`,
newest so far with sentinel `0`, provider breakdown, memory estimate). -/
def statsStep (acc : WithTop Int × Int × List (String × Nat) × Nat)
    (p : String × CacheEntry) : WithTop Int × Int × List (String × Nat) × Nat :=
  let ts : Int := p.2.motion.calculatedAt
  (min acc.1 (ts : WithTop Int), max acc.2.1 ts,
   bumpProvider acc.2.2.1 p.2.provider,
   acc.2.2.2 + (jsonEntry p.2).length * 2)

/-- `getStats` (lines 138–178): one pass over all current entries
(expired ones included — nothing filters them) tracking min/max
`calculatedAt` (sentinels `Infinity` and `0`), per-provider counts and
the memory estimate.  Read-only: the source mutates neither the map nor
the counters, so the embedding is a pure function of the state. -/
def getStats (s : CacheState) : CacheStats :=
  let acc := s.cache.foldl statsStep (⊤, 0, [], 0)
  { size := s.cache.length
    maxSize := s.maxSize
    hitCount := s.hitCount
    missCount := s.missCount
    hitRate := getHitRate s
    oldestEntry := acc.1
    newestEntry := if acc.2.1 = 0 then none else some acc.2.1
    providerBreakdown := acc.2.2.1
    memoryUsage := acc.2.2.2 }

end CacheManager

/-! ## ProviderFactory (`src/unnamed/part_002`) -/

namespace ProviderFactory

/-- JS `ToInt32`: reduce an exact integer to the signed 32-bit range. -/
def toInt32 (n : Int) : Int :=
  let m := n % 4294967296
  if m < 2147483648 then m else m - 4294967296

/-- One iteration of the `hashConfig` loop (lines 296–300):
`hash = (hash << 5) - hash + char; hash = hash & hash`. -/
def hashStep (h : Int) (c : Nat) : Int :=
  toInt32 (toInt32 (h * 32) - h + (c : Int))

/-- The character-code hash loop of `hashConfig` over a string
(`charCodeAt` is `Char.toNat` for ASCII input). -/
def charHash (s : String) : Int :=
  s.data.foldl (fun h ch => hashStep h ch.toNat) 0

/-- `Object.keys(config)` of a flat config object, in insertion order. -/
def configKeys (config : List (String × String)) : List String :=
  config.map Prod.fst

/-- Lexicographic comparison of char lists — the default JS
`Array.prototype.sort` comparator on strings (UTF-16 code-unit order,
which is `Char` order for the ASCII keys at hand). -/
def charListLe : List Char → List Char → Bool
  | [], _ => true
  | _ :: _, [] => false
  | a :: as, b :: bs =>
    if a < b then true else if b < a then false else charListLe as bs

/-- JS string `≤` on the underlying code units. -/
def strLe (a b : String) : Bool := charListLe a.data b.data

/-- `JSON.stringify(config, Object.keys(config).sort())` (line 293) for a
flat string-valued config: properties serialized in sorted key order. -/
def configJson (config : List (String × String)) : String :=
  let sortedKeys := (configKeys config).insertionSort (fun a b => strLe a b = true)
  "\x7b" ++
    String.intercalate ","
      (sortedKeys.filterMap (fun k =>
        (mapGet config k).map (fun v =>
          CacheManager.jsonString k ++ ":" ++ CacheManager.jsonString v))) ++
  "\x7d"

/-- Digit characters of `Number.prototype.toString(36)`. -/
def digit36 (d : Nat) : Char :=
  if d < 10 then Char.ofNat (48 + d) else Char.ofNat (97 + d - 10)

/-- Base-36 digit accumulation for `toString(36)`.  The first argument
is fuel making the recursion structural (so the kernel can evaluate it);
`n` itself is always enough fuel since `n / 36 < n` for `n > 0`. -/
def toString36Go : Nat → Nat → List Char → List Char
  | 0, _, acc => acc
  | fuel + 1, n, acc =>
    if n = 0 then acc
    else toString36Go fuel (n / 36) (digit36 (n % 36) :: acc)

/-- `Number.prototype.toString(36)` for a nonnegative integer. -/
def toString36 (n : Nat) : String :=
  if n = 0 then "0" else String.mk (toString36Go n n [])

/-- `hashConfig` (lines 291–303): the 32-bit character hash of the
canonical (sorted-key) JSON of the config, in base 36 and absolute
value, **suffixed with the current time** (`+ "_" + Date.now()`). -/
def hashConfig (config : List (String × String)) (now : Int) : String :=
  toString36 (charHash (configJson config)).natAbs ++ "_" ++ toString now

/-- The instance key of `createProvider` (line 88):
`` `${type}_${configHash}` ``. -/
def instanceKeyOf (ty : String) (config : List (String × String))
    (now : Int) : String :=
  ty ++ "_" ++ hashConfig config now

/-- `ProviderError` conditions thrown by `createProvider`:
unknown provider type (line 119), failed connection test (line 132), and
the wrapper for construction/initialization exceptions (line 148). -/
inductive ProviderError where
  | unknownType (ty : String)
  | connectionFailed (ty : String)
  | creationFailed (ty : String)
deriving DecidableEq, Repr

instance {ε α : Type} [DecidableEq ε] [DecidableEq α] :
    DecidableEq (Except ε α) := fun a b =>
  match a, b with
  | .error e, .error f =>
    if h : e = f then .isTrue (congrArg Except.error h)
    else .isFalse (fun hc => h (Except.error.inj hc))
  | .error _, .ok _ => .isFalse (fun hc => Except.noConfusion hc)
  | .ok _, .error _ => .isFalse (fun hc => Except.noConfusion hc)
  | .ok v, .ok w =>
    if h : v = w then .isTrue (congrArg Except.ok h)
    else .isFalse (fun hc => h (Except.ok.inj hc))

/-- State of the static `ProviderFactory` maps.  Provider instances are
identified by allocation order (`nextId` is the id `new ProviderClass()`
would produce next); `disposed` records every id whose `dispose()` was
called.  Constructor classes carry no data relevant to the claims, so
`providers` keeps only the set of registered type names. -/
structure FactoryState where
  providers : List String
  instances : List (String × Nat)
  nextId : Nat
  disposed : List Nat
deriving DecidableEq, Repr

/-- The construction half of `createProvider` (lines 117–155): look up
the constructor, allocate an instance, initialize it (`initOk` says
whether `initialize` succeeds; a failure there is wrapped, line 148, and
the instance is neither disposed nor stored), health-check it (`health`;
on failure the instance is disposed and a connection error thrown,
lines 130–136), then cache it under `instanceKey`. -/
def buildNew (st : FactoryState) (health initOk : Nat → Bool)
    (ty instanceKey : String) : Except ProviderError Nat × FactoryState :=
  if ty ∈ st.providers then
    let pid := st.nextId
    let st := { st with nextId := pid + 1 }
    if initOk pid then
      if health pid then
        (.ok pid, { st with instances := mapSet st.instances instanceKey pid })
      else
        (.error (.connectionFailed ty), { st with disposed := pid :: st.disposed })
    else
      (.error (.creationFailed ty), st)
  else
    (.error (.unknownType ty), st)

/-- `createProvider` (lines 82–155).  `health i` is the result of
`testConnection()` on instance `i` (a throwing `testConnection` on an
existing instance takes the same dispose-and-rebuild path as a `false`
result, lines 101–113); `now` is `Date.now()` during `hashConfig`. -/
def createProvider (st : FactoryState) (health initOk : Nat → Bool)
    (ty : String) (config : List (String × String)) (now : Int) :
    Except ProviderError Nat × FactoryState :=
  let instanceKey := instanceKeyOf ty config now
  match mapGet st.instances instanceKey with
  | some existing =>
    if health existing then
      (.ok existing, st)
    else
      buildNew
        { st with instances := mapDelete st.instances instanceKey,
                  disposed := existing :: st.disposed }
        health initOk ty instanceKey
  | none => buildNew st health initOk ty instanceKey

end ProviderFactory

/-! ## Trace semantics of a `CacheManager` instance

The public mutating operations of `CacheManager`, as a step function on
`CacheState`, used to state the process-lifetime counter invariant. -/

/-- One public call on a `CacheManager` (with the `Date.now()` value the
call observes, where the source reads the clock). -/
inductive CacheOp where
  | get (key : String) (now : Int)
  | set (key : String) (motion : MotionResponse) (now : Int)
  | del (key : String)
  | clearProvider (provider : String)
  | updateConfig (ttl? : Option Int) (maxSize? : Option Nat)
  | cleanup (now : Int)
  | clear
deriving DecidableEq

/-- State transition of one call (dropping returned values). -/
def step (s : CacheState) : CacheOp → CacheState
  | .get k now => (CacheManager.get s k now).2.1
  | .set k m now => CacheManager.set s k m now
  | .del k => (CacheManager.delete s k).1
  | .clearProvider p => (CacheManager.clearProviderCache s p).1
  | .updateConfig t m => CacheManager.updateConfig s t m
  | .cleanup now => (CacheManager.cleanupExpired s now).1
  | .clear => CacheManager.clearCache s

/-- Run a sequence of calls. -/
def run (s : CacheState) (ops : List CacheOp) : CacheState :=
  ops.foldl step s

/-- Whether a call is a `get`. -/
def isGet : CacheOp → Bool
  | .get _ _ => true
  | _ => false

/-- Number of `get` calls in a trace. -/
def countGets (ops : List CacheOp) : Nat :=
  (ops.filter isGet).length

/-! ## Concrete fixtures

Sample states used as counterexample inputs and witness inputs. -/

/-- A sample motion response (confidence 1/2, built as a raw rational so
that concrete goals stay kernel-decidable). -/
def sampleMotion (provider : String) (ca : Int) : MotionResponse :=
  { keys := "2j", explanation := "move down two lines",
    confidence := ⟨1, 2, by decide, by norm_num⟩,
    calculatedAt := ca, provider := provider, alternatives := none }

/-- A sample map pair: entry `k` expiring at `e`, provider `p`. -/
def sampleEntry (k : String) (e : Int) (p : String) : String × CacheEntry :=
  (k, { key := k, motion := sampleMotion p 10, expiresAt := e, provider := p })

/-- A two-entry cache at capacity `maxSize = 2`. -/
def twoEntryState : CacheState :=
  { cache := [sampleEntry "k1" 50 "claude", sampleEntry "k2" 60 "claude"],
    hitCount := 0, missCount := 0, ttl := 100, maxSize := 2 }

/-- The spec's worked example: A(exp=10), B(exp=5), C(exp=20), D(exp=1). -/
def fourEntryCache : CacheMap :=
  [sampleEntry "A" 10 "claude", sampleEntry "B" 5 "claude",
   sampleEntry "C" 20 "claude", sampleEntry "D" 1 "claude"]

/-- An empty cache with TTL 100 used for `get`-after-`set` witnesses. -/
def emptyState : CacheState :=
  { cache := [], hitCount := 0, missCount := 0, ttl := 100, maxSize := 10 }

/-- A cache holding a single entry that expires exactly at t = 100. -/
def boundaryState : CacheState :=
  { cache := [sampleEntry "k" 100 "claude"],
    hitCount := 0, missCount := 0, ttl := 100, maxSize := 10 }

/-- A mixed-provider cache (two `claude` entries, one `openai`). -/
def mixedState : CacheState :=
  { cache := [sampleEntry "a" 50 "claude", sampleEntry "b" 60 "openai",
              sampleEntry "c" 70 "claude"],
    hitCount := 4, missCount := 2, ttl := 100, maxSize := 10 }

/-- An eight-entry cache (size 8, far above a shrunken bound of 2). -/
def eightEntryState : CacheState :=
  { cache := [sampleEntry "e1" 10 "claude", sampleEntry "e2" 20 "claude",
              sampleEntry "e3" 30 "claude", sampleEntry "e4" 40 "claude",
              sampleEntry "e5" 50 "claude", sampleEntry "e6" 60 "claude",
              sampleEntry "e7" 70 "claude", sampleEntry "e8" 80 "claude"],
    hitCount := 0, missCount := 0, ttl := 100, maxSize := 100 }

/-- A cache with one already-expired entry and one live entry at t = 200. -/
def statsState : CacheState :=
  { cache := [sampleEntry "old" 150 "claude", sampleEntry "new" 400 "openai"],
    hitCount := 1, missCount := 1, ttl := 100, maxSize := 10 }

/-- A sample trace: one insert, one hit, one miss. -/
def sampleOps : List CacheOp :=
  [.set "k" (sampleMotion "claude" 1) 0, .get "k" 5, .get "absent" 5]

/-- A sample provider configuration. -/
def cfgSample : List (String × String) := [("apiKey", "k1"), ("model", "opus")]

/-- The same configuration with its keys in the other order. -/
def cfgSampleReordered : List (String × String) :=
  [("model", "opus"), ("apiKey", "k1")]

/-- A registry with `claude` registered and no live instances. -/
def factorySt0 : ProviderFactory.FactoryState :=
  { providers := ["claude"], instances := [], nextId := 0, disposed := [] }

/-- A registry with no registered provider types at all. -/
def factoryStEmpty : ProviderFactory.FactoryState :=
  { providers := [], instances := [], nextId := 0, disposed := [] }

/-- The instance key `createProvider` computes for `cfgSample` at t = 1000. -/
def keySample : String := ProviderFactory.instanceKeyOf "claude" cfgSample 1000

/-- A registry holding one live `claude` instance (id 0) under `keySample`. -/
def factoryStC : ProviderFactory.FactoryState :=
  { providers := ["claude"], instances := [(keySample, 0)], nextId := 1,
    disposed := [] }

/-- Oracle: every health check / initialization succeeds. -/
def allOk : Nat → Bool := fun _ => true

/-- Oracle: every health check fails. -/
def allFail : Nat → Bool := fun _ => false

/-- Oracle: instance 0 is broken, all later instances are healthy. -/
def healthExcept0 : Nat → Bool := fun i => i != 0

open scoped List

/-! ## Lemmas about the map operations -/

theorem mapGet_cons {α : Type} (p : String × α) (m : List (String × α))
    (k : String) :
    mapGet (p :: m) k = if p.1 == k then some p.2 else mapGet m k := by
  by_cases h : p.1 == k <;> simp [mapGet, List.find?_cons, h]

theorem mapGet_eq_none {α : Type} {m : List (String × α)} {k : String} :
    mapGet m k = none ↔ ∀ p ∈ m, p.1 ≠ k := by
  simp [mapGet, List.find?_eq_none]

theorem mapGet_some_mem {α : Type} {m : List (String × α)} {k : String}
    {v : α} (h : mapGet m k = some v) : (k, v) ∈ m := by
  unfold mapGet at h
  cases hf : m.find? (fun p => p.1 == k) with
  | none => rw [hf] at h; simp at h
  | some p =>
    rw [hf] at h
    have hk : p.1 = k := by simpa using List.find?_some hf
    have hm : p ∈ m := List.mem_of_find?_eq_some hf
    have hv : p.2 = v := by simpa using h
    have : (k, v) = p := by
      cases p; simp_all
    rw [this]; exact hm

theorem mapGet_mapSet_self {α : Type} (m : List (String × α)) (k : String)
    (v : α) : mapGet (mapSet m k v) k = some v := by
  induction m with
  | nil => simp [mapSet, mapGet, List.find?_cons]
  | cons p rest ih =>
    by_cases h : p.1 == k
    · simp [mapSet, h, mapGet, List.find?_cons]
    · simp only [mapSet, h, if_neg, Bool.false_eq_true, ite_false]
      rw [mapGet_cons, if_neg (by simp_all), ih]

theorem mapGet_mapDelete_self {α : Type} (m : List (String × α))
    (k : String) : mapGet (mapDelete m k) k = none := by
  rw [mapGet_eq_none]
  intro p hp
  rw [mapDelete, List.mem_filter] at hp
  simpa using hp.2

theorem mapSet_of_not_mem {α : Type} {m : List (String × α)} {k : String}
    (v : α) (h : mapGet m k = none) : mapSet m k v = m ++ [(k, v)] := by
  induction m with
  | nil => rfl
  | cons p rest ih =>
    rw [mapGet_cons] at h
    by_cases hpk : p.1 == k
    · rw [if_pos hpk] at h; exact absurd h (by simp)
    · rw [if_neg hpk] at h
      simp only [mapSet, hpk, Bool.false_eq_true, ite_false, List.cons_append,
        List.cons.injEq, true_and]
      exact ih h

theorem foldl_mapDelete_eq_filter {α : Type} (ks : List String)
    (m : List (String × α)) :
    ks.foldl mapDelete m = m.filter (fun p => decide (p.1 ∉ ks)) := by
  induction ks generalizing m with
  | nil => simp
  | cons k ks ih =>
    rw [List.foldl_cons, ih (mapDelete m k)]
    unfold mapDelete
    rw [List.filter_filter]
    apply List.filter_congr
    intro x _
    by_cases h1 : x.1 ∈ ks <;> by_cases h2 : x.1 = k <;> simp [h1, h2]

theorem eq_of_nodupKeys {α : Type} {m : List (String × α)} (h : NodupKeys m)
    {p q : String × α} (hp : p ∈ m) (hq : q ∈ m) (hk : p.1 = q.1) : p = q :=
  List.inj_on_of_nodup_map h hp hq hk

/-! ## Lemmas about eviction -/

theorem evictOldEntries_eq_filter (c : CacheMap) :
    CacheManager.evictOldEntries c =
      c.filter (fun p => decide (p.1 ∉
        ((c.insertionSort CacheManager.byExpiry).take (c.length / 4)).map
          Prod.fst)) := by
  unfold CacheManager.evictOldEntries
  exact foldl_mapDelete_eq_filter _ _

theorem evict_perm_drop (c : CacheMap) (h : NodupKeys c) :
    CacheManager.evictOldEntries c ~
      (c.insertionSort CacheManager.byExpiry).drop (c.length / 4) := by
  rw [evictOldEntries_eq_filter]
  set s := c.insertionSort CacheManager.byExpiry with hs
  set k := c.length / 4 with hk
  set P : (String × CacheEntry) → Bool :=
    fun p => decide (p.1 ∉ (s.take k).map Prod.fst) with hP
  have hperm : c ~ s := (List.perm_insertionSort _ c).symm
  have hnds : (s.map Prod.fst).Nodup := ((hperm.map Prod.fst).nodup_iff).mp h
  have hdisj : ((s.take k).map Prod.fst).Disjoint ((s.drop k).map Prod.fst) := by
    rw [← List.take_append_drop k s, List.map_append, List.nodup_append] at hnds
    exact hnds.2.2
  have h1 : (s.take k).filter P = [] := by
    rw [List.filter_eq_nil_iff]
    intro a ha
    simp only [hP, decide_eq_true_eq, Decidable.not_not]
    exact List.mem_map_of_mem Prod.fst ha
  have h2 : (s.drop k).filter P = s.drop k := by
    rw [List.filter_eq_self]
    intro a ha
    simp only [hP, decide_eq_true_eq]
    exact fun hmem => hdisj hmem (List.mem_map_of_mem Prod.fst ha)
  have hfs : s.filter P = s.drop k := by
    calc s.filter P = (s.take k ++ s.drop k).filter P := by
          rw [List.take_append_drop]
      _ = (s.take k).filter P ++ (s.drop k).filter P := List.filter_append _ _
      _ = s.drop k := by rw [h1, h2, List.nil_append]
  exact hfs ▸ hperm.filter P

theorem sorted_take_drop {α : Type} {r : α → α → Prop} {l : List α}
    (h : List.Sorted r l) (k : Nat) {x y : α} (hx : x ∈ l.take k)
    (hy : y ∈ l.drop k) : r x y := by
  have h' : List.Pairwise r (l.take k ++ l.drop k) := by
    rw [List.take_append_drop]; exact h
  exact (List.pairwise_append.mp h').2.2 x hx y hy

/-! ## Lemmas about persistence (`saveCache` / `loadCache`) -/

theorem mapGet_append_eq_none {α : Type} {m₁ m₂ : List (String × α)}
    {k : String} :
    mapGet (m₁ ++ m₂) k = none ↔ mapGet m₁ k = none ∧ mapGet m₂ k = none := by
  simp [mapGet_eq_none, List.mem_append, or_imp, forall_and]

theorem loadCache_foldl (now : Int) :
    ∀ (es : List CacheEntry) (m : CacheMap),
      (∀ e ∈ es, mapGet m e.key = none) →
      (es.map CacheEntry.key).Nodup →
      es.foldl
          (fun m entry =>
            if entry.expiresAt > now then mapSet m entry.key entry else m) m
        = m ++ (es.filter (fun e => decide (now < e.expiresAt))).map
            (fun e => (e.key, e)) := by
  intro es
  induction es with
  | nil => intro m _ _; simp
  | cons e es ih =>
    intro m hdisj hnd
    rw [List.map_cons, List.nodup_cons] at hnd
    rw [List.foldl_cons]
    by_cases he : e.expiresAt > now
    · rw [if_pos he, mapSet_of_not_mem e (hdisj e (List.mem_cons_self e es))]
      rw [ih (m ++ [(e.key, e)]) ?_ hnd.2]
      · rw [List.filter_cons_of_pos (by simpa using he), List.map_cons]
        simp
      · intro e' he'
        rw [mapGet_append_eq_none]
        refine ⟨hdisj e' (List.mem_cons_of_mem e he'), ?_⟩
        rw [mapGet_eq_none]
        intro p hp
        rw [List.mem_singleton] at hp
        subst hp
        intro hcon
        exact hnd.1 (by
          rw [show e.key = e'.key from hcon]
          exact List.mem_map_of_mem CacheEntry.key he')
    · rw [if_neg he,
        ih m (fun e' h' => hdisj e' (List.mem_cons_of_mem e h')) hnd.2,
        List.filter_cons_of_neg (by simpa using he)]

/-! ## Lemmas about `getStats` -/

theorem foldl_statsStep (l : List (String × CacheEntry)) :
    ∀ (o : WithTop Int) (n : Int) (b : List (String × Nat)) (m : Nat),
      l.foldl CacheManager.statsStep (o, n, b, m) =
        (l.foldl (fun o p => min o ((p.2.motion.calculatedAt : Int) : WithTop Int)) o,
         l.foldl (fun n p => max n p.2.motion.calculatedAt) n,
         l.foldl (fun b p => CacheManager.bumpProvider b p.2.provider) b,
         l.foldl (fun m p => m + (CacheManager.jsonEntry p.2).length * 2) m) := by
  induction l with
  | nil => intro o n b m; rfl
  | cons p l ih =>
    intro o n b m
    simp only [List.foldl_cons, CacheManager.statsStep]
    exact ih _ _ _ _

theorem mapGet_bumpProvider (b : List (String × Nat)) (p p' : String) :
    mapGet (CacheManager.bumpProvider b p) p'
      = if p' = p then some ((mapGet b p').getD 0 + 1) else mapGet b p' := by
  induction b with
  | nil =>
    by_cases h : p' = p
    · subst h; simp [CacheManager.bumpProvider, mapGet_cons, mapGet]
    · have hq : (p == p') = false := beq_eq_false_iff_ne.mpr (Ne.symm h)
      simp [CacheManager.bumpProvider, mapGet_cons, mapGet, h, hq]
  | cons q rest ih =>
    by_cases h1 : q.1 = p
    · by_cases h2 : p' = p
      · subst h2; subst h1
        simp [CacheManager.bumpProvider, mapGet_cons]
      · have hq : (q.1 == p') = false :=
          beq_eq_false_iff_ne.mpr (by rw [h1]; exact Ne.symm h2)
        simp [CacheManager.bumpProvider, h1, mapGet_cons, hq, h2, Ne.symm h2]
    · have hq : (q.1 == p) = false := beq_eq_false_iff_ne.mpr h1
      by_cases h3 : q.1 = p'
      · have h2 : ¬ p' = p := fun hh => h1 (h3.trans hh)
        have hq' : (q.1 == p') = true := by simp [h3]
        simp [CacheManager.bumpProvider, hq, mapGet_cons, hq', h2]
      · have hq' : (q.1 == p') = false := beq_eq_false_iff_ne.mpr h3
        simp [CacheManager.bumpProvider, hq, mapGet_cons, hq', ih]

theorem mapGet_foldl_bump (l : List (String × CacheEntry)) (pv : String) :
    ∀ b, mapGet (l.foldl (fun b p => CacheManager.bumpProvider b p.2.provider) b) pv
      = if l.countP (fun p => p.2.provider == pv) = 0 then mapGet b pv
        else some ((mapGet b pv).getD 0
          + l.countP (fun p => p.2.provider == pv)) := by
  induction l with
  | nil => intro b; simp
  | cons q l ih =>
    intro b
    rw [List.foldl_cons, ih, mapGet_bumpProvider, List.countP_cons]
    by_cases hq : q.2.provider = pv
    · subst hq
      by_cases hc : l.countP (fun p => p.2.provider == q.2.provider) = 0
      · simp [hc]
      · simp [hc]
        omega
    · have h2 : ¬ pv = q.2.provider := fun hh => hq hh.symm
      have hb : (q.2.provider == pv) = false := beq_eq_false_iff_ne.mpr hq
      by_cases hc : l.countP (fun p => p.2.provider == pv) = 0
      · simp [hc, h2, hb]
      · simp [hc, h2, hb]

theorem foldl_min_le_init (l : List (String × CacheEntry)) :
    ∀ o : WithTop Int,
      l.foldl (fun o p => min o ((p.2.motion.calculatedAt : Int) : WithTop Int)) o
        ≤ o := by
  induction l with
  | nil => intro o; exact le_refl o
  | cons p l ih =>
    intro o
    rw [List.foldl_cons]
    exact (ih _).trans (min_le_left _ _)

theorem foldl_min_le_mem {l : List (String × CacheEntry)}
    {q : String × CacheEntry} (hq : q ∈ l) :
    ∀ o : WithTop Int,
      l.foldl (fun o p => min o ((p.2.motion.calculatedAt : Int) : WithTop Int)) o
        ≤ ((q.2.motion.calculatedAt : Int) : WithTop Int) := by
  induction l with
  | nil => cases hq
  | cons p l ih =>
    intro o
    rw [List.foldl_cons]
    rcases List.mem_cons.mp hq with h | h
    · subst h
      exact (foldl_min_le_init l _).trans (min_le_right _ _)
    · exact ih h _

theorem le_foldl_max_init (l : List (String × CacheEntry)) :
    ∀ n : Int, n ≤ l.foldl (fun n p => max n p.2.motion.calculatedAt) n := by
  induction l with
  | nil => intro n; exact le_refl n
  | cons p l ih =>
    intro n
    rw [List.foldl_cons]
    exact (le_max_left _ _).trans (ih _)

theorem foldl_max_mem {l : List (String × CacheEntry)}
    {q : String × CacheEntry} (hq : q ∈ l) :
    ∀ n : Int,
      q.2.motion.calculatedAt
        ≤ l.foldl (fun n p => max n p.2.motion.calculatedAt) n := by
  induction l with
  | nil => cases hq
  | cons p l ih =>
    intro n
    rw [List.foldl_cons]
    rcases List.mem_cons.mp hq with h | h
    · subst h
      exact (le_max_right _ _).trans (le_foldl_max_init l _)
    · exact ih h _

theorem foldl_add_jsonLen (l : List (String × CacheEntry)) :
    ∀ m : Nat,
      l.foldl (fun m p => m + (CacheManager.jsonEntry p.2).length * 2) m
        = m + (l.map (fun p => (CacheManager.jsonEntry p.2).length * 2)).sum := by
  induction l with
  | nil => intro m; simp
  | cons p l ih =>
    intro m
    rw [List.foldl_cons, ih, List.map_cons, List.sum_cons]
    omega

/-! ## Claim C2 -/

/-- **C2** (counterexample): a non-empty two-entry cache at capacity
(`maxSize = 2`).  `evictOldEntries` removes `⌊2 × 0.25⌋ = 0` entries, so
eviction does **not** strictly decrease the entry count, and the `set`
that triggered it pushes the cache to 3 entries, beyond `maxSize`. -/
theorem c2_evict_at_capacity_counterexample :
    twoEntryState.cache.length = twoEntryState.maxSize ∧
    twoEntryState.cache ≠ [] ∧
    CacheManager.evictOldEntries twoEntryState.cache = twoEntryState.cache ∧
    ¬ (CacheManager.evictOldEntries twoEntryState.cache).length
        < twoEntryState.cache.length ∧
    (CacheManager.set twoEntryState "k3" (sampleMotion "claude" 1) 0).cache.length
      = 3 := by
  decide

/-- **C2** (amended): eviction removes `⌊n / 4⌋` entries, so it strictly
decreases the entry count exactly when the cache holds at least 4
entries; on a cache of 1–3 entries it removes nothing. -/
theorem c2_evict_decreases_iff_four_entries (c : CacheMap) :
    (4 ≤ c.length → (CacheManager.evictOldEntries c).length < c.length) ∧
    (c.length < 4 → CacheManager.evictOldEntries c = c) := by
  constructor
  · intro h4
    rw [evictOldEntries_eq_filter, List.length_filter_lt_length_iff_exists]
    have hk : 1 ≤ c.length / 4 := (Nat.one_le_div_iff (by norm_num)).mpr h4
    have hpos : 0 <
        ((c.insertionSort CacheManager.byExpiry).take (c.length / 4)).length := by
      rw [List.length_take, List.length_insertionSort]
      omega
    obtain ⟨x, hx⟩ := List.exists_mem_of_length_pos hpos
    refine ⟨x, ?_, ?_⟩
    · exact (List.mem_insertionSort CacheManager.byExpiry).mp
        (List.mem_of_mem_take hx)
    · simp only [decide_eq_true_eq, Decidable.not_not]
      exact List.mem_map_of_mem Prod.fst hx
  · intro h4
    have h0 : c.length / 4 = 0 := Nat.div_eq_of_lt h4
    simp [CacheManager.evictOldEntries, h0]

/-- Witness for the amended C2 at concrete inputs: the 4-entry cache
shrinks, the 2-entry cache is untouched. -/
theorem c2_witness :
    ((CacheManager.evictOldEntries fourEntryCache).length
       < fourEntryCache.length) ∧
    CacheManager.evictOldEntries twoEntryState.cache = twoEntryState.cache :=
  ⟨(c2_evict_decreases_iff_four_entries fourEntryCache).1 (by decide),
   (c2_evict_decreases_iff_four_entries twoEntryState.cache).2 (by decide)⟩

/-! ## Claim C4 -/

/-- **C4**: eviction sorts all entries by `expiresAt` ascending and
removes a prefix of that order, so no entry remaining after eviction has
an earlier `expiresAt` than any evicted entry (soonest-to-expire removed
first, independent of insertion or access order). -/
theorem c4_evict_soonest_expiring_first (c : CacheMap) (hnd : NodupKeys c)
    (r e : String × CacheEntry) (hr : r ∈ CacheManager.evictOldEntries c)
    (he : e ∈ c) (hne : e ∉ CacheManager.evictOldEntries c) :
    e.2.expiresAt ≤ r.2.expiresAt := by
  have hperm := evict_perm_drop c hnd
  have hr' : r ∈ (c.insertionSort CacheManager.byExpiry).drop (c.length / 4) :=
    hperm.mem_iff.mp hr
  have hes : e ∈ c.insertionSort CacheManager.byExpiry :=
    (List.mem_insertionSort CacheManager.byExpiry).mpr he
  have hne' : e ∉ (c.insertionSort CacheManager.byExpiry).drop (c.length / 4) :=
    fun hcon => hne (hperm.mem_iff.mpr hcon)
  have het : e ∈ (c.insertionSort CacheManager.byExpiry).take (c.length / 4) := by
    rw [← List.take_append_drop (c.length / 4)
      (c.insertionSort CacheManager.byExpiry)] at hes
    rcases List.mem_append.mp hes with h | h
    · exact h
    · exact absurd h hne'
  exact sorted_take_drop
    (List.sorted_insertionSort CacheManager.byExpiry c) (c.length / 4) het hr'

/-- Witness for C4: in the spec's worked example A(10), B(5), C(20),
D(1), eviction removes D and keeps A, whose expiry is no earlier. -/
theorem c4_witness :
    (sampleEntry "D" 1 "claude").2.expiresAt
      ≤ (sampleEntry "A" 10 "claude").2.expiresAt :=
  c4_evict_soonest_expiring_first fourEntryCache (by decide)
    (sampleEntry "A" 10 "claude") (sampleEntry "D" 1 "claude")
    (by decide) (by decide) (by decide)

/-! ## Claim C3 -/

/-- **C3**: after `set key motion` at time `now` with TTL `ttl`, a `get`
at any time `t ≤ now + ttl` (the boundary included: expiry is
`expiresAt < Date.now()`, strict) returns the stored motion, records a
hit and leaves the map alone; a `get` at `t > now + ttl` returns absent,
records a miss and removes the entry from the map. -/
theorem c3_get_respects_ttl (s : CacheState) (key : String)
    (motion : MotionResponse) (now t : Int) :
    (t ≤ now + s.ttl →
       (CacheManager.get (CacheManager.set s key motion now) key t).1
           = some motion ∧
       (CacheManager.get (CacheManager.set s key motion now) key t).2.1.hitCount
           = s.hitCount + 1 ∧
       (CacheManager.get (CacheManager.set s key motion now) key t).2.1.cache
           = (CacheManager.set s key motion now).cache) ∧
    (now + s.ttl < t →
       (CacheManager.get (CacheManager.set s key motion now) key t).1 = none ∧
       (CacheManager.get (CacheManager.set s key motion now) key t).2.1.missCount
           = s.missCount + 1 ∧
       mapGet
         (CacheManager.get (CacheManager.set s key motion now) key t).2.1.cache
         key = none) := by
  have hget : mapGet (CacheManager.set s key motion now).cache key
      = some { key := key, motion := motion, expiresAt := now + s.ttl,
               provider := motion.provider } := by
    unfold CacheManager.set
    simp only [apply_ite CacheState.ttl, ite_self]
    exact mapGet_mapSet_self _ key _
  have hhit : (CacheManager.set s key motion now).hitCount = s.hitCount := by
    unfold CacheManager.set
    simp [apply_ite CacheState.hitCount]
  have hmiss : (CacheManager.set s key motion now).missCount = s.missCount := by
    unfold CacheManager.set
    simp [apply_ite CacheState.missCount]
  constructor
  · intro hle
    have hnotexp : ¬ ((now + s.ttl) < t) := not_lt.mpr hle
    simp [CacheManager.get, hget, hnotexp, hhit]
  · intro hlt
    simp [CacheManager.get, hget, hlt, hmiss, mapGet_mapDelete_self]

/-! ## Claim C5: counter accounting over traces -/

theorem step_counters_sum (u : CacheState) (op : CacheOp)
    (h : op ≠ CacheOp.clear) :
    (step u op).hitCount + (step u op).missCount
      = u.hitCount + u.missCount + (if isGet op then 1 else 0) := by
  cases op with
  | get k now =>
    simp only [step, isGet, if_true, ite_true]
    unfold CacheManager.get
    cases hm : mapGet u.cache k with
    | none => simp [hm] <;> omega
    | some e =>
      by_cases he : e.expiresAt < now <;> simp [hm, he] <;> omega
  | set k m now =>
    simp [step, isGet, CacheManager.set, apply_ite CacheState.hitCount,
      apply_ite CacheState.missCount]
  | del k =>
    simp [step, isGet, CacheManager.delete,
      apply_ite (Prod.fst : CacheState × Bool → CacheState),
      apply_ite CacheState.hitCount, apply_ite CacheState.missCount]
  | clearProvider p =>
    simp [step, isGet, CacheManager.clearProviderCache]
  | updateConfig t? m? =>
    simp only [step, isGet, if_false, ite_false]
    unfold CacheManager.updateConfig
    cases t? <;> cases m? <;>
      simp [apply_ite CacheState.hitCount, apply_ite CacheState.missCount]
  | cleanup now =>
    simp [step, isGet, CacheManager.cleanupExpired]
  | clear => exact absurd rfl h

theorem step_counters_frame (u : CacheState) (op : CacheOp)
    (h1 : isGet op = false) (h2 : op ≠ CacheOp.clear) :
    (step u op).hitCount = u.hitCount ∧
    (step u op).missCount = u.missCount := by
  cases op with
  | get k now => simp [isGet] at h1
  | clear => exact absurd rfl h2
  | set k m now =>
    constructor <;>
      simp [step, CacheManager.set, apply_ite CacheState.hitCount,
        apply_ite CacheState.missCount]
  | del k =>
    constructor <;>
      simp [step, CacheManager.delete,
        apply_ite (Prod.fst : CacheState × Bool → CacheState),
        apply_ite CacheState.hitCount, apply_ite CacheState.missCount]
  | clearProvider p =>
    constructor <;> simp [step, CacheManager.clearProviderCache]
  | updateConfig t? m? =>
    constructor <;>
      (simp only [step]
       unfold CacheManager.updateConfig
       cases t? <;> cases m? <;>
         simp [apply_ite CacheState.hitCount, apply_ite CacheState.missCount])
  | cleanup now =>
    constructor <;> simp [step, CacheManager.cleanupExpired]

theorem step_get_dichotomy (u : CacheState) (k : String) (n : Int) :
    ((step u (CacheOp.get k n)).hitCount = u.hitCount + 1 ∧
     (step u (CacheOp.get k n)).missCount = u.missCount) ∨
    ((step u (CacheOp.get k n)).hitCount = u.hitCount ∧
     (step u (CacheOp.get k n)).missCount = u.missCount + 1) := by
  simp only [step]
  unfold CacheManager.get
  cases hm : mapGet u.cache k with
  | none => right; simp [hm]
  | some e =>
    by_cases he : e.expiresAt < n
    · right; simp [hm, he]
    · left; simp [hm, he]

theorem run_counters (ops : List CacheOp) :
    ∀ s : CacheState, CacheOp.clear ∉ ops →
      (run s ops).hitCount + (run s ops).missCount
        = s.hitCount + s.missCount + countGets ops := by
  induction ops with
  | nil => intro s _; simp [run, countGets]
  | cons op ops ih =>
    intro s hnc
    have hne : op ≠ CacheOp.clear := fun h => hnc (h ▸ List.mem_cons_self op ops)
    have hnc' : CacheOp.clear ∉ ops := fun h => hnc (List.mem_cons_of_mem op h)
    have hstep := step_counters_sum s op hne
    have hrun : run s (op :: ops) = run (step s op) ops := by
      simp [run, List.foldl_cons]
    rw [hrun, ih (step s op) hnc']
    have hcnt : countGets (op :: ops)
        = countGets ops + (if isGet op then 1 else 0) := by
      simp only [countGets, List.filter_cons]
      by_cases h : isGet op <;> simp [h] <;> omega
    rw [hcnt]
    omega

/-- **C5**: starting from reset counters (a fresh construction or the
state right after `clearCache`), over any trace without a `clearCache`:
hits + misses equals the number of `get` calls; the reported hit rate is
`hits / (hits + misses) * 100` with denominator equal to that count (`0`
when no `get` was made); every `get` bumps exactly one of the two
counters; no other operation changes them; and `clearCache` resets both
to zero. -/
theorem c5_hit_miss_accounting (s0 : CacheState) (ops : List CacheOp)
    (h0 : s0.hitCount = 0 ∧ s0.missCount = 0)
    (hnc : CacheOp.clear ∉ ops) :
    ((run s0 ops).hitCount + (run s0 ops).missCount = countGets ops) ∧
    (CacheManager.getHitRate (run s0 ops)
       = if countGets ops = 0 then 0
         else ((run s0 ops).hitCount : ℚ) / (countGets ops : ℚ) * 100) ∧
    (∀ (u : CacheState) (op : CacheOp), isGet op = false →
       op ≠ CacheOp.clear →
       (step u op).hitCount = u.hitCount ∧
       (step u op).missCount = u.missCount) ∧
    (∀ (u : CacheState) (k : String) (n : Int),
       ((step u (CacheOp.get k n)).hitCount = u.hitCount + 1 ∧
        (step u (CacheOp.get k n)).missCount = u.missCount) ∨
       ((step u (CacheOp.get k n)).hitCount = u.hitCount ∧
        (step u (CacheOp.get k n)).missCount = u.missCount + 1)) ∧
    (∀ u : CacheState, (step u CacheOp.clear).hitCount = 0 ∧
       (step u CacheOp.clear).missCount = 0) := by
  have hsum : (run s0 ops).hitCount + (run s0 ops).missCount = countGets ops := by
    rw [run_counters ops s0 hnc, h0.1, h0.2]
    omega
  refine ⟨hsum, ?_, step_counters_frame, step_get_dichotomy, ?_⟩
  · unfold CacheManager.getHitRate
    rw [hsum]
  · intro u
    constructor <;> simp [step, CacheManager.clearCache]

/-- Witness for C5: the sample trace (one `set`, one hit, one miss) has
two `get` calls and the counters sum to 2. -/
theorem c5_witness :
    (run emptyState sampleOps).hitCount + (run emptyState sampleOps).missCount
      = countGets sampleOps :=
  (c5_hit_miss_accounting emptyState sampleOps (by decide) (by decide)).1

/-- Witness for C3 at concrete inputs: TTL 100, insert at t = 0; a `get`
at exactly t = 100 hits, a `get` at t = 101 misses and removes. -/
theorem c3_witness :
    ((CacheManager.get (CacheManager.set emptyState "k"
          (sampleMotion "claude" 1) 0) "k" 100).1
        = some (sampleMotion "claude" 1)) ∧
    ((CacheManager.get (CacheManager.set emptyState "k"
          (sampleMotion "claude" 1) 0) "k" 101).1 = none) :=
  ⟨((c3_get_respects_ttl emptyState "k" (sampleMotion "claude" 1) 0 100).1
      (by decide)).1,
   ((c3_get_respects_ttl emptyState "k" (sampleMotion "claude" 1) 0 101).2
      (by decide)).1⟩

/-! ## Claim C7 -/

/-- **C7**: `clearProviderCache p` removes exactly the entries whose
`provider` field equals `p` (the result is the original list filtered in
place, so every surviving entry keeps its key, motion and `expiresAt`
and its position), leaves the hit/miss counters and configuration
untouched, and calls `saveCache` iff at least one entry was removed. -/
theorem c7_clear_provider_exact (s : CacheState) (p : String)
    (hnd : NodupKeys s.cache) :
    ((CacheManager.clearProviderCache s p).1.cache
       = s.cache.filter (fun q => q.2.provider != p)) ∧
    ((CacheManager.clearProviderCache s p).1.hitCount = s.hitCount) ∧
    ((CacheManager.clearProviderCache s p).1.missCount = s.missCount) ∧
    ((CacheManager.clearProviderCache s p).1.ttl = s.ttl) ∧
    ((CacheManager.clearProviderCache s p).1.maxSize = s.maxSize) ∧
    ((CacheManager.clearProviderCache s p).2 = true ↔
       ∃ q ∈ s.cache, q.2.provider = p) := by
  refine ⟨?_, rfl, rfl, rfl, rfl, ?_⟩
  · show ((s.cache.filter (fun q => q.2.provider == p)).map Prod.fst).foldl
        mapDelete s.cache = _
    rw [foldl_mapDelete_eq_filter]
    apply List.filter_congr
    intro q hq
    by_cases hqp : q.2.provider = p
    · have hmem : q.1 ∈ (s.cache.filter (fun q => q.2.provider == p)).map
          Prod.fst :=
        List.mem_map_of_mem Prod.fst (List.mem_filter.mpr ⟨hq, by simp [hqp]⟩)
      simp [hmem, hqp]
    · have hmem : q.1 ∉ (s.cache.filter (fun q => q.2.provider == p)).map
          Prod.fst := by
        intro hmem
        obtain ⟨q', hq', hk⟩ := List.mem_map.mp hmem
        have hq'2 := List.mem_filter.mp hq'
        have heq : q' = q := eq_of_nodupKeys hnd hq'2.1 hq hk
        exact hqp (by rw [← heq]; simpa using hq'2.2)
      simp [hmem, hqp]
  · show decide (((s.cache.filter (fun q => q.2.provider == p)).map
        Prod.fst).length > 0) = true ↔ _
    rw [decide_eq_true_eq]
    constructor
    · intro h
      obtain ⟨x, hx⟩ := List.exists_mem_of_length_pos h
      obtain ⟨q', hq', _⟩ := List.mem_map.mp hx
      have h2 := List.mem_filter.mp hq'
      exact ⟨q', h2.1, by simpa using h2.2⟩
    · rintro ⟨q, hq, hqp⟩
      have hmem : q.1 ∈ (s.cache.filter (fun q => q.2.provider == p)).map
          Prod.fst :=
        List.mem_map_of_mem Prod.fst (List.mem_filter.mpr ⟨hq, by simp [hqp]⟩)
      exact List.length_pos.mpr (List.ne_nil_of_mem hmem)

/-- Witness for C7: clearing `claude` from the mixed cache keeps exactly
the `openai` entry. -/
theorem c7_witness :
    (CacheManager.clearProviderCache mixedState "claude").1.cache
      = mixedState.cache.filter (fun q => q.2.provider != "claude") :=
  (c7_clear_provider_exact mixedState "claude" (by decide)).1

/-! ## Claim C6 -/

/-- **C6** (counterexample): an entry with `expiresAt` exactly equal to
the reload time `T = 100` is *live* at `T` — `get` returns it (expiry is
`expiresAt < now`, strict) and `has` is true (`expiresAt ≥ now`) — yet
`loadCache` keeps only entries with `expiresAt > now`, so the save/load
round trip at `T` silently drops this live entry. -/
theorem c6_boundary_counterexample :
    (CacheManager.get boundaryState "k" 100).1
        = some (sampleMotion "claude" 10) ∧
    CacheManager.has boundaryState "k" 100 = true ∧
    CacheManager.loadCache (CacheManager.saveCache boundaryState.cache) 100
        = [] := by
  decide

/-- **C6** (amended): the save/load round trip at time `T` yields
exactly the entries with `expiresAt` **strictly** greater than `T`, each
preserved verbatim (key, motion, `expiresAt`, provider); every entry
with `expiresAt ≤ T` — including one expiring exactly at `T`, which
`get`/`has` still treat as live — is silently dropped. -/
theorem c6_roundtrip_amended (c : CacheMap) (now : Int) (hnd : NodupKeys c)
    (hkeys : ∀ p ∈ c, p.1 = p.2.key) :
    CacheManager.loadCache (CacheManager.saveCache c) now
      = c.filter (fun p => decide (now < p.2.expiresAt)) := by
  have h1 : ∀ e ∈ c.map Prod.snd, mapGet ([] : CacheMap) e.key = none := by
    intro e _; rfl
  have h2 : ((c.map Prod.snd).map CacheEntry.key).Nodup := by
    rw [List.map_map]
    have hcomp : c.map (CacheEntry.key ∘ Prod.snd) = c.map Prod.fst :=
      List.map_congr_left (fun p hp => (hkeys p hp).symm)
    rw [hcomp]; exact hnd
  unfold CacheManager.loadCache CacheManager.saveCache
  rw [loadCache_foldl now (c.map Prod.snd) [] h1 h2, List.nil_append,
    List.filter_map, List.map_map]
  have hfe : c.filter ((fun e => decide (now < e.expiresAt)) ∘ Prod.snd)
      = c.filter (fun p => decide (now < p.2.expiresAt)) :=
    List.filter_congr (fun x _ => rfl)
  rw [hfe]
  have hid : ∀ x ∈ c.filter (fun p => decide (now < p.2.expiresAt)),
      ((fun e => (e.key, e)) ∘ Prod.snd) x = x := by
    intro x hx
    have hxc := (List.mem_filter.mp hx).1
    have hk := hkeys x hxc
    cases x with
    | mk a b => simp_all [Function.comp]
  rw [List.map_congr_left hid, List.map_id']

/-- Witness for the amended C6: reloading the two-entry cache (one entry
expired at 150, one live until 400) at T = 200 keeps exactly the live
entry with all fields intact. -/
theorem c6_witness :
    CacheManager.loadCache (CacheManager.saveCache statsState.cache) 200
      = statsState.cache.filter (fun p => decide (200 < p.2.expiresAt)) :=
  c6_roundtrip_amended statsState.cache 200 (by decide) (by decide)

/-! ## Claim C8 -/

/-- **C8** (counterexample): shrinking `maxSize` from above 8 to 2 on an
8-entry cache triggers eviction, but the single 25 % pass removes only 2
entries: the resulting size 6 is **not** within the new bound 2. -/
theorem c8_shrink_counterexample :
    2 < eightEntryState.cache.length ∧
    (CacheManager.updateConfig eightEntryState none (some 2)).maxSize = 2 ∧
    (CacheManager.updateConfig eightEntryState none (some 2)).cache.length
        = 6 ∧
    ¬ (CacheManager.updateConfig eightEntryState none (some 2)).cache.length
        ≤ (CacheManager.updateConfig eightEntryState none (some 2)).maxSize := by
  decide

/-- **C8** (amended): reconfiguring with a `maxSize` smaller than the
current entry count triggers eviction immediately, but the eviction is a
single pass removing `⌊n / 4⌋` soonest-expiring entries, so the
resulting size is `n - ⌊n / 4⌋`, not necessarily within the new bound;
surviving entries are kept verbatim.  Updating the TTL leaves the cache
(in particular every `expiresAt`) untouched and affects only future
insertions, whose `expiresAt` becomes `now + newTtl`. -/
theorem c8_updateConfig_amended (s : CacheState) (t : Int) (m : Nat)
    (hnd : NodupKeys s.cache) (hover : m < s.cache.length) :
    ((CacheManager.updateConfig s (some t) (some m)).ttl = t) ∧
    ((CacheManager.updateConfig s (some t) (some m)).maxSize = m) ∧
    ((CacheManager.updateConfig s (some t) (some m)).cache
        = CacheManager.evictOldEntries s.cache) ∧
    ((CacheManager.updateConfig s (some t) (some m)).cache.length
        = s.cache.length - s.cache.length / 4) ∧
    (∀ p ∈ (CacheManager.updateConfig s (some t) (some m)).cache,
        p ∈ s.cache) ∧
    ((CacheManager.updateConfig s (some t) none).cache = s.cache) ∧
    ((CacheManager.updateConfig s (some t) none).ttl = t) ∧
    (∀ (key : String) (motion : MotionResponse) (now : Int),
       mapGet (CacheManager.set (CacheManager.updateConfig s (some t) none)
           key motion now).cache key
         = some { key := key, motion := motion, expiresAt := now + t,
                  provider := motion.provider }) := by
  have hif : CacheManager.updateConfig s (some t) (some m)
      = { s with ttl := t, maxSize := m,
                 cache := CacheManager.evictOldEntries s.cache } := by
    simp only [CacheManager.updateConfig]
    rw [if_pos hover]
  have hlen : (CacheManager.evictOldEntries s.cache).length
      = s.cache.length - s.cache.length / 4 := by
    rw [(evict_perm_drop s.cache hnd).length_eq, List.length_drop,
      List.length_insertionSort]
  refine ⟨by rw [hif], by rw [hif], by rw [hif], by rw [hif]; exact hlen,
    ?_, rfl, rfl, ?_⟩
  · intro p hp
    rw [hif] at hp
    simp only at hp
    rw [evictOldEntries_eq_filter] at hp
    exact (List.mem_filter.mp hp).1
  · intro key motion now
    unfold CacheManager.set
    simp only [apply_ite CacheState.ttl, ite_self]
    exact mapGet_mapSet_self _ key _

/-- Witness for the amended C8: the 8-entry cache reconfigured to
`maxSize = 2` (and TTL 500) evicts down to 6 entries, and a subsequent
insert at t = 0 expires at 500. -/
theorem c8_witness :
    ((CacheManager.updateConfig eightEntryState (some 500) (some 2)).cache.length
        = eightEntryState.cache.length - eightEntryState.cache.length / 4) ∧
    mapGet (CacheManager.set
        (CacheManager.updateConfig eightEntryState (some 500) none)
        "k9" (sampleMotion "claude" 1) 0).cache "k9"
      = some { key := "k9", motion := sampleMotion "claude" 1,
               expiresAt := 0 + 500, provider := "claude" } :=
  ⟨(c8_updateConfig_amended eightEntryState 500 2 (by decide) (by decide)).2.2.2.1,
   (c8_updateConfig_amended eightEntryState 500 2 (by decide)
      (by decide)).2.2.2.2.2.2.2 "k9" (sampleMotion "claude" 1) 0⟩

/-! ## Claim C10 -/

/-- **C10**: `getStats` and `exportCache` do not filter expired entries:
an entry whose `expiresAt` has passed and that has not yet been removed
still counts in `size`, in `providerBreakdown` (which tallies every
entry of its provider), in `memoryUsage` (the sum over *all* entries),
and in the oldest/newest `calculatedAt` aggregation, and it appears in
the export output with a negative `expiresIn`.  Both operations are
read-only in the source — they are pure functions here — and `getStats`
reports the hit/miss counters unchanged. -/
theorem c10_stats_export_include_expired (s : CacheState) (now : Int)
    (q : String × CacheEntry) (hq : q ∈ s.cache)
    (hexp : q.2.expiresAt < now) :
    ((CacheManager.getStats s).size = s.cache.length) ∧
    ((CacheManager.getStats s).hitCount = s.hitCount) ∧
    ((CacheManager.getStats s).missCount = s.missCount) ∧
    (mapGet (CacheManager.getStats s).providerBreakdown q.2.provider
       = some (s.cache.countP (fun p => p.2.provider == q.2.provider)) ∧
     1 ≤ s.cache.countP (fun p => p.2.provider == q.2.provider)) ∧
    ((CacheManager.getStats s).memoryUsage
       = (s.cache.map (fun p => (CacheManager.jsonEntry p.2).length * 2)).sum) ∧
    (∃ o : Int, (CacheManager.getStats s).oldestEntry = some o ∧
       o ≤ q.2.motion.calculatedAt) ∧
    (0 < q.2.motion.calculatedAt →
       ∃ nw : Int, (CacheManager.getStats s).newestEntry = some nw ∧
         q.2.motion.calculatedAt ≤ nw) ∧
    (∃ r ∈ CacheManager.exportCache s now,
       r.key = CacheManager.truncKey q.1 ∧ r.provider = q.2.provider ∧
       r.confidence = q.2.motion.confidence ∧
       r.age = now - q.2.motion.calculatedAt ∧
       r.expiresIn = q.2.expiresAt - now ∧ r.expiresIn < 0) := by
  have hstats := foldl_statsStep s.cache ⊤ 0 [] 0
  have hcpos : 0 < s.cache.countP (fun p => p.2.provider == q.2.provider) :=
    List.countP_pos.mpr ⟨q, hq, by simp⟩
  refine ⟨rfl, rfl, rfl, ⟨?_, hcpos⟩, ?_, ?_, ?_, ?_⟩
  · have hbd : (CacheManager.getStats s).providerBreakdown
        = s.cache.foldl (fun b p => CacheManager.bumpProvider b p.2.provider)
            [] := by
      show (s.cache.foldl CacheManager.statsStep (⊤, 0, [], 0)).2.2.1 = _
      rw [hstats]
    rw [hbd, mapGet_foldl_bump,
      if_neg (by omega : ¬ s.cache.countP (fun p => p.2.provider == q.2.provider) = 0)]
    simp [mapGet]
  · have hmu : (CacheManager.getStats s).memoryUsage
        = s.cache.foldl
            (fun m p => m + (CacheManager.jsonEntry p.2).length * 2) 0 := by
      show (s.cache.foldl CacheManager.statsStep (⊤, 0, [], 0)).2.2.2 = _
      rw [hstats]
    rw [hmu, foldl_add_jsonLen]
    omega
  · have hold : (CacheManager.getStats s).oldestEntry
        = s.cache.foldl
            (fun o p => min o ((p.2.motion.calculatedAt : Int) : WithTop Int))
            ⊤ := by
      show (s.cache.foldl CacheManager.statsStep (⊤, 0, [], 0)).1 = _
      rw [hstats]
    have hle := foldl_min_le_mem hq (⊤ : WithTop Int)
    cases hfold : s.cache.foldl
        (fun o p => min o ((p.2.motion.calculatedAt : Int) : WithTop Int))
        (⊤ : WithTop Int) with
    | top =>
      rw [hfold] at hle
      exact absurd (top_le_iff.mp hle) (WithTop.coe_ne_top)
    | coe o =>
      rw [hfold] at hle
      exact ⟨o, by rw [hold, hfold]; rfl, WithTop.coe_le_coe.mp hle⟩
  · intro hpos
    have hnew : (CacheManager.getStats s).newestEntry
        = (if s.cache.foldl (fun n p => max n p.2.motion.calculatedAt) 0 = 0
           then none
           else some (s.cache.foldl
             (fun n p => max n p.2.motion.calculatedAt) 0)) := by
      show (if (s.cache.foldl CacheManager.statsStep (⊤, 0, [], 0)).2.1 = 0
            then none
            else some (s.cache.foldl CacheManager.statsStep (⊤, 0, [], 0)).2.1)
          = _
      rw [hstats]
    have hqle := foldl_max_mem hq 0
    refine ⟨s.cache.foldl (fun n p => max n p.2.motion.calculatedAt) 0,
      ?_, hqle⟩
    rw [hnew, if_neg (by omega)]
  · refine ⟨_, (List.mem_insertionSort CacheManager.byAgeDesc).mpr
      (List.mem_map_of_mem _ hq), rfl, rfl, rfl, rfl, rfl, ?_⟩
    simp only
    omega

/-- Witness for C10: the entry `old` of `statsState` is already expired
at t = 200 but still counted in the stats size. -/
theorem c10_witness :
    (CacheManager.getStats statsState).size = statsState.cache.length ∧
    mapGet (CacheManager.getStats statsState).providerBreakdown "claude"
      = some (statsState.cache.countP (fun p => p.2.provider == "claude")) :=
  ⟨(c10_stats_export_include_expired statsState 200
      (sampleEntry "old" 150 "claude") (by decide) (by decide)).1,
   (c10_stats_export_include_expired statsState 200
      (sampleEntry "old" 150 "claude") (by decide) (by decide)).2.2.2.1.1⟩

/-! ## Claim C9 -/

/-- **C9**: error paths of `createProvider`.
  (a) With an unregistered type (and no stale instance cached under the
  computed key — guaranteed in every reachable registry state, since
  `unregisterProvider` disposes and removes all instances of the type),
  `create` fails with the provider-type error and the whole state —
  in particular the instance map — is unchanged: nothing is constructed.
  (b) A newly constructed instance whose health check fails is disposed
  and `create` fails with the provider-connection error; the instance is
  never stored.
  (c) A failing health check on an existing instance disposes it,
  removes it, and a fresh instance (distinct from the old one, by the
  allocation invariant that every stored id precedes `nextId`) is
  constructed and stored under the same key. -/
theorem c9_createProvider_error_paths (st : ProviderFactory.FactoryState)
    (health initOk : Nat → Bool) (ty : String)
    (config : List (String × String)) (now : Int) :
    (ty ∉ st.providers →
      mapGet st.instances (ProviderFactory.instanceKeyOf ty config now) = none →
      ProviderFactory.createProvider st health initOk ty config now
        = (.error (.unknownType ty), st)) ∧
    (mapGet st.instances (ProviderFactory.instanceKeyOf ty config now) = none →
      ty ∈ st.providers → initOk st.nextId = true → health st.nextId = false →
      ProviderFactory.createProvider st health initOk ty config now
        = (.error (.connectionFailed ty),
           { st with nextId := st.nextId + 1,
                     disposed := st.nextId :: st.disposed })) ∧
    (∀ inst : Nat,
      mapGet st.instances (ProviderFactory.instanceKeyOf ty config now)
          = some inst →
      health inst = false → ty ∈ st.providers → initOk st.nextId = true →
      health st.nextId = true →
      (∀ pr ∈ st.instances, pr.2 < st.nextId) →
      ProviderFactory.createProvider st health initOk ty config now
          = (.ok st.nextId,
             { st with
                 instances := mapSet
                   (mapDelete st.instances
                     (ProviderFactory.instanceKeyOf ty config now))
                   (ProviderFactory.instanceKeyOf ty config now) st.nextId,
                 nextId := st.nextId + 1,
                 disposed := inst :: st.disposed }) ∧
        st.nextId ≠ inst ∧
        mapGet
          (mapSet
            (mapDelete st.instances
              (ProviderFactory.instanceKeyOf ty config now))
            (ProviderFactory.instanceKeyOf ty config now) st.nextId)
          (ProviderFactory.instanceKeyOf ty config now) = some st.nextId) := by
  refine ⟨?_, ?_, ?_⟩
  · intro hty hnone
    simp [ProviderFactory.createProvider, ProviderFactory.buildNew, hnone, hty]
  · intro hnone hty hinit hhealth
    simp [ProviderFactory.createProvider, ProviderFactory.buildNew, hnone, hty,
      hinit, hhealth]
  · intro inst hsome hbroken hty hinit hhealth hfresh
    have hne : st.nextId ≠ inst := by
      have hmem := mapGet_some_mem hsome
      have := hfresh _ hmem
      omega
    refine ⟨?_, hne, mapGet_mapSet_self _ _ _⟩
    simp [ProviderFactory.createProvider, ProviderFactory.buildNew, hsome,
      hbroken, hty, hinit, hhealth]

set_option maxRecDepth 100000 in
/-- Witness for C9: the three error paths at concrete registries —
(a) empty registry, (b) all health checks failing on a fresh build,
(c) a broken cached instance (id 0) replaced by a fresh healthy one. -/
theorem c9_witness :
    (ProviderFactory.createProvider factoryStEmpty allOk allOk "claude"
        cfgSample 1000
      = (.error (.unknownType "claude"), factoryStEmpty)) ∧
    (ProviderFactory.createProvider factorySt0 allFail allOk "claude"
        cfgSample 1000
      = (.error (.connectionFailed "claude"),
         { factorySt0 with nextId := 1, disposed := [0] })) ∧
    (ProviderFactory.createProvider factoryStC healthExcept0 allOk "claude"
        cfgSample 1000
      = (.ok 1,
         { factoryStC with
             instances := mapSet (mapDelete factoryStC.instances keySample)
               keySample 1,
             nextId := 2, disposed := [0] })) :=
  ⟨(c9_createProvider_error_paths factoryStEmpty allOk allOk "claude"
      cfgSample 1000).1 (by decide) (by decide),
   (c9_createProvider_error_paths factorySt0 allFail allOk "claude"
      cfgSample 1000).2.1 (by decide) (by decide) (by decide) (by decide),
   ((c9_createProvider_error_paths factoryStC healthExcept0 allOk "claude"
      cfgSample 1000).2.2 0 (by decide) (by decide) (by decide) (by decide)
      (by decide) (by decide)).1⟩

/-! ## Claim C1 -/

set_option maxRecDepth 100000 in
/-- **C1** (code bug, evaluated at the failing input): `hashConfig` is
order-independent over config keys — the two key orders of the same
configuration hash identically at the same instant — but it appends
`Date.now()` to the hash (`+ "_" + Date.now()`), so the instance key is
**not** deterministic: the same type and configuration at t = 1000 and
t = 1001 yield different keys, the second `createProvider` call misses
the instance cache, and construction runs again (a second instance,
id 1, is returned and `nextId` reaches 2), contradicting both the
claimed reuse and the `hashConfig` comment "Create a stable hash of the
configuration". -/
theorem c1_timestamped_key_defeats_reuse :
    (ProviderFactory.hashConfig cfgSample 1000
        = ProviderFactory.hashConfig cfgSampleReordered 1000) ∧
    (ProviderFactory.instanceKeyOf "claude" cfgSample 1000
        ≠ ProviderFactory.instanceKeyOf "claude" cfgSample 1001) ∧
    ((ProviderFactory.createProvider factorySt0 allOk allOk "claude"
        cfgSample 1000).1 = .ok 0) ∧
    ((ProviderFactory.createProvider
        (ProviderFactory.createProvider factorySt0 allOk allOk "claude"
          cfgSample 1000).2
        allOk allOk "claude" cfgSample 1001).1 = .ok 1) ∧
    ((ProviderFactory.createProvider
        (ProviderFactory.createProvider factorySt0 allOk allOk "claude"
          cfgSample 1000).2
        allOk allOk "claude" cfgSample 1001).2.nextId = 2) := by
  decide

end SmartVim
